import Mathlib

/-!
Shallow embedding of the `parse` package: a `TextReader` over a byte stream
(src/unnamed/part_000) and a `BinaryReader` / `BinaryWriter` pair (src/binary.go).

Go machine integers are modelled as `Nat` (unsigned) and `Int` (signed) with
explicit two's-complement conversions; `float32` / `float64` values are modelled
by their IEEE-754 bit patterns (Go's `math.Float32bits` / `Float32frombits` are
raw bit reinterpretations, so the bit pattern is the value as far as the byte
codec is concerned).  Go's `error` values are modelled by `Option GoErr`
(`none` = nil).  A Go panic is modelled as a distinguished result constructor
carrying the state at the moment of the panic.
-/

/-- Errors that can arise from the underlying source/sink or be latched by a
cursor: `eof` is `io.EOF`, `errUnexpectedEOF` is `io.ErrUnexpectedEOF`,
`bufferFull` is `bufio.ErrBufferFull`, and `ioError k` stands for an arbitrary
genuine I/O error distinguished by a tag. -/
inductive GoErr where
  | eof
  | errUnexpectedEOF
  | bufferFull
  | ioError (tag : Nat)
deriving DecidableEq, Repr

/-- The two standard byte orders of `encoding/binary`. -/
inductive ByteOrder where
  | little
  | big
deriving DecidableEq, Repr

/-- Model of `binary.LittleEndian.Uint16` / `BigEndian.Uint16`: `b[0] | b[1]<<8`
(resp. `b[1] | b[0]<<8`). -/
def ByteOrder.uint16 : ByteOrder → List Nat → Nat
  | .little, b => b.getD 0 0 + b.getD 1 0 * 256
  | .big, b => b.getD 1 0 + b.getD 0 0 * 256

/-- Model of `PutUint16`: stores `byte(v)` and `byte(v >> 8)` in order-dependent slots. -/
def ByteOrder.putUint16 : ByteOrder → Nat → List Nat
  | .little, v => [v % 256, v / 256 % 256]
  | .big, v => [v / 256 % 256, v % 256]

/-- Model of `Uint32` of `encoding/binary` for each byte order. -/
def ByteOrder.uint32 : ByteOrder → List Nat → Nat
  | .little, b => b.getD 0 0 + b.getD 1 0 * 256 + b.getD 2 0 * 65536 + b.getD 3 0 * 16777216
  | .big, b => b.getD 3 0 + b.getD 2 0 * 256 + b.getD 1 0 * 65536 + b.getD 0 0 * 16777216

/-- Model of `PutUint32` of `encoding/binary` for each byte order. -/
def ByteOrder.putUint32 : ByteOrder → Nat → List Nat
  | .little, v => [v % 256, v / 256 % 256, v / 65536 % 256, v / 16777216 % 256]
  | .big, v => [v / 16777216 % 256, v / 65536 % 256, v / 256 % 256, v % 256]

/-- Model of `Uint64` of `encoding/binary` for each byte order. -/
def ByteOrder.uint64 : ByteOrder → List Nat → Nat
  | .little, b =>
      b.getD 0 0 + b.getD 1 0 * 256 + b.getD 2 0 * 65536 + b.getD 3 0 * 16777216 +
      b.getD 4 0 * 4294967296 + b.getD 5 0 * 1099511627776 +
      b.getD 6 0 * 281474976710656 + b.getD 7 0 * 72057594037927936
  | .big, b =>
      b.getD 7 0 + b.getD 6 0 * 256 + b.getD 5 0 * 65536 + b.getD 4 0 * 16777216 +
      b.getD 3 0 * 4294967296 + b.getD 2 0 * 1099511627776 +
      b.getD 1 0 * 281474976710656 + b.getD 0 0 * 72057594037927936

/-- Model of `PutUint64` of `encoding/binary` for each byte order. -/
def ByteOrder.putUint64 : ByteOrder → Nat → List Nat
  | .little, v =>
      [v % 256, v / 256 % 256, v / 65536 % 256, v / 16777216 % 256,
       v / 4294967296 % 256, v / 1099511627776 % 256,
       v / 281474976710656 % 256, v / 72057594037927936 % 256]
  | .big, v =>
      [v / 72057594037927936 % 256, v / 281474976710656 % 256,
       v / 1099511627776 % 256, v / 4294967296 % 256,
       v / 16777216 % 256, v / 65536 % 256, v / 256 % 256, v % 256]

/-- Go conversion `uint8(n)` of a signed value (two's complement). -/
def toUint8 (x : Int) : Nat := (x % 256).toNat

/-- Go conversion `uint16(n)` of a signed value (two's complement). -/
def toUint16 (x : Int) : Nat := (x % 65536).toNat

/-- Go conversion `uint32(n)` of a signed value (two's complement). -/
def toUint32 (x : Int) : Nat := (x % 4294967296).toNat

/-- Go conversion `uint64(n)` of a signed value (two's complement). -/
def toUint64 (x : Int) : Nat := (x % 18446744073709551616).toNat

/-- Go conversion `int8(b)` of an unsigned value (two's complement). -/
def toInt8 (u : Nat) : Int := if u < 128 then (u : Int) else (u : Int) - 256

/-- Go conversion `int16(u)` of an unsigned value (two's complement). -/
def toInt16 (u : Nat) : Int := if u < 32768 then (u : Int) else (u : Int) - 65536

/-- Go conversion `int32(u)` of an unsigned value (two's complement). -/
def toInt32 (u : Nat) : Int :=
  if u < 2147483648 then (u : Int) else (u : Int) - 4294967296

/-- Go conversion `int64(u)` of an unsigned value (two's complement). -/
def toInt64 (u : Nat) : Int :=
  if u < 9223372036854775808 then (u : Int) else (u : Int) - 18446744073709551616

/-- The closed set of numeric types accepted by `NumberSize`. -/
inductive NumType where
  | i8 | u8 | i16 | u16 | i32 | u32 | i64 | u64 | f32 | f64
deriving DecidableEq, Repr

/-- A value of one of the supported numeric types.  Signed integers carry an
`Int`, unsigned integers a `Nat`, and floats their IEEE-754 bit pattern. -/
inductive NumValue where
  | vi8 (x : Int)
  | vu8 (x : Nat)
  | vi16 (x : Int)
  | vu16 (x : Nat)
  | vi32 (x : Int)
  | vu32 (x : Nat)
  | vi64 (x : Int)
  | vu64 (x : Nat)
  | vf32 (bits : Nat)
  | vf64 (bits : Nat)
deriving DecidableEq, Repr

/-- The numeric type of a `NumValue`. -/
def NumValue.numType : NumValue → NumType
  | .vi8 _ => .i8
  | .vu8 _ => .u8
  | .vi16 _ => .i16
  | .vu16 _ => .u16
  | .vi32 _ => .i32
  | .vu32 _ => .u32
  | .vi64 _ => .i64
  | .vu64 _ => .u64
  | .vf32 _ => .f32
  | .vf64 _ => .f64

/-- The value is representable in its Go type: signed values lie in the two's
complement range, unsigned values and float bit patterns below `2^width`. -/
def NumValue.valid : NumValue → Prop
  | .vi8 x => -128 ≤ x ∧ x < 128
  | .vu8 x => x < 256
  | .vi16 x => -32768 ≤ x ∧ x < 32768
  | .vu16 x => x < 65536
  | .vi32 x => -2147483648 ≤ x ∧ x < 2147483648
  | .vu32 x => x < 4294967296
  | .vi64 x => -9223372036854775808 ≤ x ∧ x < 9223372036854775808
  | .vu64 x => x < 18446744073709551616
  | .vf32 bits => bits < 4294967296
  | .vf64 bits => bits < 18446744073709551616

/-- The argument passed to `Number`: a pointer to a supported type, a
non-pointer value of a supported type, or anything else (`invalid`). -/
inductive NumArg where
  | ptr (t : NumType)
  | val (v : NumValue)
  | invalid
deriving DecidableEq, Repr

/-- Byte width of a supported numeric type (the per-type arms of `NumberSize`). -/
def NumType.size : NumType → Nat
  | .i8 | .u8 => 1
  | .i16 | .u16 => 2
  | .i32 | .u32 | .f32 => 4
  | .i64 | .u64 | .f64 => 8

/-- Model of `NumberSize` (src/binary.go): 1/2/4/8 for the supported types, pointer or
not, and 0 for any other type. -/
def NumberSize : NumArg → Nat
  | .ptr t => t.size
  | .val v => v.numType.size
  | .invalid => 0

/-- The decode arms of `BinaryReader.Number`: interpret `b` as a value of type
`t` under byte order `ord` (floats stay as their bit patterns, which is what
`math.Float32frombits` / `Float64frombits` produce). -/
def readValue (ord : ByteOrder) : NumType → List Nat → NumValue
  | .i8, b => .vi8 (toInt8 (b.getD 0 0))
  | .u8, b => .vu8 (b.getD 0 0)
  | .i16, b => .vi16 (toInt16 (ord.uint16 b))
  | .u16, b => .vu16 (ord.uint16 b)
  | .i32, b => .vi32 (toInt32 (ord.uint32 b))
  | .u32, b => .vu32 (ord.uint32 b)
  | .i64, b => .vi64 (toInt64 (ord.uint64 b))
  | .u64, b => .vu64 (ord.uint64 b)
  | .f32, b => .vf32 (ord.uint32 b)
  | .f64, b => .vf64 (ord.uint64 b)

/-- The encode arms of `BinaryWriter.Number`: the byte image of `v` under byte
order `ord` (floats are already bit patterns, as `math.Float32bits` /
`Float64bits` yield). -/
def writeValue (ord : ByteOrder) : NumValue → List Nat
  | .vi8 x => [toUint8 x]
  | .vu8 x => [x]
  | .vi16 x => ord.putUint16 (toUint16 x)
  | .vu16 x => ord.putUint16 x
  | .vi32 x => ord.putUint32 (toUint32 x)
  | .vu32 x => ord.putUint32 x
  | .vi64 x => ord.putUint64 (toUint64 x)
  | .vu64 x => ord.putUint64 x
  | .vf32 bits => ord.putUint32 bits
  | .vf64 bits => ord.putUint64 bits

/-!
`BinaryReader` (src/binary.go).  The underlying `io.Reader` is modelled as the
list of bytes it will still deliver (`src`) followed by a terminal condition
(`srcErr`: clean `eof` or a genuine I/O error).  `n` is the `int64` byte count,
`err` the latched error (nil = `none`).
-/

/-- State of a `BinaryReader` (src/binary.go). -/
structure BinaryReader where
  src : List Nat
  srcErr : GoErr
  ord : ByteOrder
  n : Int
  err : Option GoErr
deriving DecidableEq, Repr

/-- Model of `NewBinaryReader`: wraps a source, byte order little endian, nothing read. -/
def newBinaryReader (src : List Nat) (srcErr : GoErr) : BinaryReader :=
  { src := src, srcErr := srcErr, ord := .little, n := 0, err := none }

/-- Result of `SetByteOrder`: either a panic (nil order) with the untouched
state, or the updated state. -/
inductive SetOrderRes (σ : Type) where
  | panicked (st : σ)
  | ok (st : σ)
deriving DecidableEq, Repr

/-- Model of `BinaryReader.SetByteOrder`: panics if order is nil, else sets the order. -/
def BinaryReader.setByteOrder (r : BinaryReader) :
    Option ByteOrder → SetOrderRes BinaryReader
  | none => .panicked r
  | some o => .ok { r with ord := o }

/-- Model of `BinaryReader.Add`: folds an external (count, error) pair into the cursor. -/
def BinaryReader.add (r : BinaryReader) (m : Int) (e : Option GoErr) :
    Bool × BinaryReader :=
  if r.err ≠ none then (true, r)
  else
    let r' : BinaryReader := { r with n := r.n + m, err := e }
    if e ≠ none then (true, r') else (false, r')

/-- Model of `BinaryReader.Bytes`: `io.ReadFull` into a buffer of length `k`; returns
(failed, bytes filled, new state).  `io.ReadFull` delivers `min k src.length`
bytes; a full read has nil error, a short read yields `ErrUnexpectedEOF` when
some bytes were read and the source ended cleanly, `EOF` when none were, and
the underlying error itself otherwise. -/
def BinaryReader.bytes (r : BinaryReader) (k : Nat) :
    Bool × List Nat × BinaryReader :=
  if r.err ≠ none then (true, [], r)
  else if k ≤ r.src.length then
    (false, r.src.take k, { r with src := r.src.drop k, n := r.n + k })
  else
    let e : GoErr :=
      if r.srcErr = .eof then
        if r.src.length = 0 then .eof else .errUnexpectedEOF
      else r.srcErr
    (true, r.src, { r with src := [], n := r.n + r.src.length, err := some e })

/-- Result of `BinaryReader.Number`: a panic carrying the state at the panic,
or a normal return (failed flag, decoded value if any, new state). -/
inductive RNumRes where
  | panicked (st : BinaryReader)
  | ret (failed : Bool) (v : Option NumValue) (st : BinaryReader)
deriving DecidableEq, Repr

/-- Model of `BinaryReader.Number`: sticky-fault guard first, then the `NumberSize`
check (zero size panics with the state untouched), then `Bytes`, then the
type-switch decode — a non-pointer argument of an accepted type reaches the
`default` arm and panics only after the bytes were read. -/
def BinaryReader.number (r : BinaryReader) (v : NumArg) : RNumRes :=
  if r.err ≠ none then .ret true none r
  else if NumberSize v = 0 then .panicked r
  else
    match r.bytes (NumberSize v) with
    | (true, _, r') => .ret true none r'
    | (false, b, r') =>
      match v with
      | .ptr t => .ret false (some (readValue r.ord t b)) r'
      | .val _ => .panicked r'
      | .invalid => .panicked r'

/-- Model of `BinaryReader.All`: `io.ReadAll` drains the source; `n` is advanced by the
number of bytes obtained even when the source ends with a genuine error, in
which case nil data and failure are returned and the error latches. -/
def BinaryReader.all (r : BinaryReader) : List Nat × Bool × BinaryReader :=
  if r.err ≠ none then ([], true, r)
  else if r.srcErr = .eof then
    (r.src, false, { r with src := [], n := r.n + r.src.length })
  else
    ([], true,
      { r with src := [], n := r.n + r.src.length, err := some r.srcErr })

/-!
`BinaryWriter` (src/binary.go).  The underlying `io.Writer` is modelled by a
list of prescribed outcomes `wbehav`: the i-th `Write(p)` call takes the i-th
entry `(c, e)` and reports `(min c p.length, e)`; an exhausted list means full
acceptance with nil error.  `sunk` records the bytes actually taken. -/

/-- State of a `BinaryWriter` (src/binary.go). -/
structure BinaryWriter where
  wbehav : List (Nat × Option GoErr)
  sunk : List Nat
  ord : ByteOrder
  n : Int
  err : Option GoErr
deriving DecidableEq, Repr

/-- Model of `NewBinaryWriter`: wraps a sink, byte order little endian, nothing written. -/
def newBinaryWriter (wbehav : List (Nat × Option GoErr)) : BinaryWriter :=
  { wbehav := wbehav, sunk := [], ord := .little, n := 0, err := none }

/-- One call of the underlying writer's `Write(p)`: (count, error, new state). -/
def BinaryWriter.write (w : BinaryWriter) (p : List Nat) :
    Nat × Option GoErr × BinaryWriter :=
  match w.wbehav with
  | [] => (p.length, none, { w with sunk := w.sunk ++ p })
  | (c, e) :: rest =>
      (min c p.length, e,
        { w with wbehav := rest, sunk := w.sunk ++ p.take (min c p.length) })

/-- Model of `BinaryWriter.SetByteOrder`: panics if order is nil, else sets the order. -/
def BinaryWriter.setByteOrder (w : BinaryWriter) :
    Option ByteOrder → SetOrderRes BinaryWriter
  | none => .panicked w
  | some o => .ok { w with ord := o }

/-- Model of `BinaryWriter.Add`: folds an external (count, error) pair into the cursor. -/
def BinaryWriter.add (w : BinaryWriter) (m : Int) (e : Option GoErr) :
    Bool × BinaryWriter :=
  if w.err ≠ none then (true, w)
  else
    let w' : BinaryWriter := { w with n := w.n + m, err := e }
    if e ≠ none then (true, w') else (false, w')

/-- Model of `BinaryWriter.Bytes`: one underlying `Write(p)`; the returned count is
always added to `n` and the returned error always stored in `err`, and the
call fails exactly when the count is short of `len(p)`. -/
def BinaryWriter.bytes (w : BinaryWriter) (p : List Nat) :
    Bool × BinaryWriter :=
  if w.err ≠ none then (true, w)
  else
    match w.write p with
    | (m, e, w') =>
      let w'' : BinaryWriter := { w' with n := w'.n + m, err := e }
      if m < p.length then (true, w'') else (false, w'')

/-- Result of `BinaryWriter.Number`: a panic carrying the state at the panic,
or a normal return (failed flag, new state). -/
inductive WNumRes where
  | panicked (st : BinaryWriter)
  | ret (failed : Bool) (st : BinaryWriter)
deriving DecidableEq, Repr

/-- Model of `BinaryWriter.Number`: sticky-fault guard first, then the `NumberSize`
check (zero size panics, state untouched), then the type-switch encode — a
pointer argument of an accepted type reaches the `default` arm and panics
before anything is written — then `Bytes` on the encoded image. -/
def BinaryWriter.number (w : BinaryWriter) (v : NumArg) : WNumRes :=
  if w.err ≠ none then .ret true w
  else if NumberSize v = 0 then .panicked w
  else
    match v with
    | .val nv =>
        match w.bytes (writeValue w.ord nv) with
        | (f, w') => .ret f w'
    | .ptr _ => .panicked w
    | .invalid => .panicked w

/-!
`TextReader` (src/unnamed/part_000).  The wrapped `bufio.Reader` is modelled
by the list of bytes the source still holds (`src`), a terminal condition
(`srcErr`), and the bufio buffer size (`bufSize`, 4096 for the default
`bufio.NewReader`).  `ReadRune` decodes the first UTF-8 rune of `src` the way
`utf8.DecodeRune` does; `Peek` looks at raw bytes.
-/

/-- A UTF-8 continuation byte, `0x80..0xBF`. -/
def isCont (b : Nat) : Bool := 128 ≤ b && b ≤ 191

/-- The accept range of the first continuation byte after a 3-byte leader, per
the `utf8` package's accept table (rules out overlong forms and surrogates). -/
def accept3 (b0 b1 : Nat) : Bool :=
  if b0 = 224 then 160 ≤ b1 && b1 ≤ 191
  else if b0 = 237 then 128 ≤ b1 && b1 ≤ 159
  else isCont b1

/-- The accept range of the first continuation byte after a 4-byte leader, per
the `utf8` package's accept table (rules out overlong forms and > U+10FFFF). -/
def accept4 (b0 b1 : Nat) : Bool :=
  if b0 = 240 then 144 ≤ b1 && b1 ≤ 191
  else if b0 = 244 then 128 ≤ b1 && b1 ≤ 143
  else isCont b1

/-- Model of `utf8.DecodeRune` on the first bytes of the list: the decoded rune and its
byte width.  Invalid or incomplete sequences yield `(0xFFFD, 1)` exactly as in
Go; the empty list never reaches this in the cursor (`bufio` reports the read
error instead) and is given width 0. -/
def utf8DecodeFirst : List Nat → Int × Nat
  | [] => (0, 0)
  | b0 :: rest =>
    if b0 < 128 then ((b0 : Int), 1)
    else if b0 < 194 then (65533, 1)
    else if b0 ≤ 223 then
      if 1 ≤ rest.length && isCont (rest.getD 0 0) then
        (((b0 - 192) * 64 + (rest.getD 0 0 - 128) : Nat), 2)
      else (65533, 1)
    else if b0 ≤ 239 then
      if 2 ≤ rest.length && accept3 b0 (rest.getD 0 0) && isCont (rest.getD 1 0) then
        (((b0 - 224) * 4096 + (rest.getD 0 0 - 128) * 64 + (rest.getD 1 0 - 128) : Nat), 3)
      else (65533, 1)
    else if b0 ≤ 244 then
      if 3 ≤ rest.length && accept4 b0 (rest.getD 0 0) && isCont (rest.getD 1 0)
          && isCont (rest.getD 2 0) then
        (((b0 - 240) * 262144 + (rest.getD 0 0 - 128) * 4096 +
          (rest.getD 1 0 - 128) * 64 + (rest.getD 2 0 - 128) : Nat), 4)
      else (65533, 1)
    else (65533, 1)

/-- Model of `utf8.EncodeRune` / Go `string(c)` for a single rune: the UTF-8 bytes of
`c`, with out-of-range runes and surrogates encoded as U+FFFD. -/
def utf8Encode (c : Int) : List Nat :=
  if c < 0 then [239, 191, 189]
  else
    let u := c.toNat
    if u < 128 then [u]
    else if u < 2048 then [192 + u / 64, 128 + u % 64]
    else if u < 65536 then
      if 55296 ≤ u && u ≤ 57343 then [239, 191, 189]
      else [224 + u / 4096, 128 + u / 64 % 64, 128 + u % 64]
    else if u ≤ 1114111 then
      [240 + u / 262144, 128 + u / 4096 % 64, 128 + u / 64 % 64, 128 + u % 64]
    else [239, 191, 189]

/-- State of a `TextReader` (src/unnamed/part_000). -/
structure TextReader where
  src : List Nat
  srcErr : GoErr
  bufSize : Nat
  n : Nat
  err : Option GoErr
deriving DecidableEq, Repr

/-- Model of `NewTextReader` over a plain reader: default `bufio` buffer of 4096,
nothing read, no latched error. -/
def newTextReader (src : List Nat) (srcErr : GoErr) : TextReader :=
  { src := src, srcErr := srcErr, bufSize := 4096, n := 0, err := none }

/-- Model of `bufio.Reader.Peek(k)`: `k` beyond the buffer size yields at most a
buffer-full of bytes and `ErrBufferFull`; `k` beyond the available bytes
yields what is available and the source's terminal error; otherwise the first
`k` bytes and nil. -/
def TextReader.peek (t : TextReader) (k : Nat) : List Nat × Option GoErr :=
  if t.bufSize < k then (t.src.take t.bufSize, some .bufferFull)
  else if t.src.length < k then (t.src, some t.srcErr)
  else (t.src.take k, none)

/-- Model of `TextReader.Next`: one `ReadRune`; on success advances `n` by the rune's
byte width and returns the rune, on failure latches the error and returns -1. -/
def TextReader.next (t : TextReader) : Int × TextReader :=
  if t.err ≠ none then (-1, t)
  else
    match t.src with
    | [] => (-1, { t with err := some t.srcErr })
    | b :: rest =>
      match utf8DecodeFirst (b :: rest) with
      | (c, w) => (c, { t with src := (b :: rest).drop w, n := t.n + w })

/-- Model of `TextReader.MustNext`: like `Next`, but a latched `io.EOF` from the failed
read is upgraded to `io.ErrUnexpectedEOF`. -/
def TextReader.mustNext (t : TextReader) : Int × TextReader :=
  if t.err ≠ none then (-1, t)
  else
    match t.next with
    | (r, t') =>
      if r < 0 then
        if t'.err = some .eof then (r, { t' with err := some .errUnexpectedEOF })
        else (r, t')
      else (r, t')

/-- Model of `TextReader.Is`: empty string matches at once; otherwise `Peek(len s)` —
a peek error returns no-match, clearing the error exactly when it is `io.EOF`
and latching it otherwise; on a byte-for-byte match the bytes are discarded
and counted, on a mismatch nothing moves. -/
def TextReader.is (t : TextReader) (s : List Nat) : Bool × TextReader :=
  if t.err ≠ none then (false, t)
  else if s = [] then (true, t)
  else
    let pk := t.peek s.length
    if pk.2 ≠ none then
      if pk.2 = some .eof then (false, { t with err := none })
      else (false, { t with err := pk.2 })
    else if pk.1 ≠ s then (false, t)
    else (true, { t with src := t.src.drop s.length, n := t.n + s.length })

/-- Loop body of `TextReader.IsAny`: read a rune; clean EOF ends the scan
successfully, a genuine error latches and fails; a non-matching rune is unread
(the cursor byte position is restored) and the scan succeeds; a matching rune
is appended to the accumulator and counted.  `fuel` bounds the recursion and
is always at least one more than the bytes remaining. -/
def isAnyGo (f : Int → Bool) : Nat → TextReader → List Nat →
    List Nat × Bool × TextReader
  | 0, t, _ => ([], false, t)
  | fuel + 1, t, acc =>
    match t.src with
    | [] =>
      if t.srcErr = .eof then (acc, true, { t with err := none })
      else ([], false, { t with err := some t.srcErr })
    | b :: rest =>
      match utf8DecodeFirst (b :: rest) with
      | (c, w) =>
        if ¬ f c then (acc, true, t)
        else
          isAnyGo f fuel
            { t with src := (b :: rest).drop w, n := t.n + w }
            (acc ++ utf8Encode c)

/-- Model of `TextReader.IsAny`. -/
def TextReader.isAny (t : TextReader) (f : Int → Bool) :
    List Nat × Bool × TextReader :=
  if t.err ≠ none then ([], false, t)
  else isAnyGo f (t.src.length + 1) t []

/-- Model of `TextReader.IsEOF`: with a latched error, true exactly when it is `io.EOF`;
otherwise a one-byte peek, true exactly when it reports `io.EOF`. -/
def TextReader.isEOF (t : TextReader) : Bool :=
  if t.err ≠ none then t.err = some .eof
  else
    match t.src with
    | [] => t.srcErr = .eof
    | _ :: _ => false

/-- Loop body of `TextReader.Skip`: as `isAnyGo` but without accumulating. -/
def skipGo (f : Int → Bool) : Nat → TextReader → Bool × TextReader
  | 0, t => (false, t)
  | fuel + 1, t =>
    match t.src with
    | [] =>
      if t.srcErr = .eof then (true, { t with err := none })
      else (false, { t with err := some t.srcErr })
    | b :: rest =>
      match utf8DecodeFirst (b :: rest) with
      | (c, w) =>
        if ¬ f c then (true, t)
        else skipGo f fuel { t with src := (b :: rest).drop w, n := t.n + w }

/-- Model of `TextReader.Skip`. -/
def TextReader.skip (t : TextReader) (f : Int → Bool) : Bool × TextReader :=
  if t.err ≠ none then (false, t)
  else skipGo f (t.src.length + 1) t

/-- Loop body of `TextReader.Until`: read a rune; any read error latches
(a clean EOF upgraded to `ErrUnexpectedEOF`) and fails with an empty result;
a rune equal to `v` ends the scan — the rune stays consumed from the source
and its width is not added to `n`; any other rune is accumulated and counted. -/
def untilGo (v : Int) : Nat → TextReader → List Nat →
    List Nat × Bool × TextReader
  | 0, t, _ => ([], false, t)
  | fuel + 1, t, acc =>
    match t.src with
    | [] =>
      if t.srcErr = .eof then ([], false, { t with err := some .errUnexpectedEOF })
      else ([], false, { t with err := some t.srcErr })
    | b :: rest =>
      match utf8DecodeFirst (b :: rest) with
      | (c, w) =>
        if c = v then (acc, true, { t with src := (b :: rest).drop w })
        else
          untilGo v fuel
            { t with src := (b :: rest).drop w, n := t.n + w }
            (acc ++ utf8Encode c)

/-- Model of `TextReader.Until`. -/
def TextReader.until (t : TextReader) (v : Int) :
    List Nat × Bool × TextReader :=
  if t.err ≠ none then ([], false, t)
  else untilGo v (t.src.length + 1) t []

/-- Loop body of `TextReader.UntilAny`: as `untilGo` with a predicate in place
of the target rune; the matching rune likewise stays consumed (it is not
unread) and its width is not added to `n`. -/
def untilAnyGo (f : Int → Bool) : Nat → TextReader → List Nat →
    List Nat × Bool × TextReader
  | 0, t, _ => ([], false, t)
  | fuel + 1, t, acc =>
    match t.src with
    | [] =>
      if t.srcErr = .eof then ([], false, { t with err := some .errUnexpectedEOF })
      else ([], false, { t with err := some t.srcErr })
    | b :: rest =>
      match utf8DecodeFirst (b :: rest) with
      | (c, w) =>
        if f c then (acc, true, { t with src := (b :: rest).drop w })
        else
          untilAnyGo f fuel
            { t with src := (b :: rest).drop w, n := t.n + w }
            (acc ++ utf8Encode c)

/-- Model of `TextReader.UntilAny`. -/
def TextReader.untilAny (t : TextReader) (f : Int → Bool) :
    List Nat × Bool × TextReader :=
  if t.err ≠ none then ([], false, t)
  else untilAnyGo f (t.src.length + 1) t []

/-- Model of `TextReader.UntilEOF`: `ioutil.ReadAll` drains the source; on a clean end
the bytes are returned and counted, on a genuine error the error latches and
`n` is left unchanged (the count is added only after the error check). -/
def TextReader.untilEOF (t : TextReader) : List Nat × Bool × TextReader :=
  if t.err ≠ none then ([], false, t)
  else if t.srcErr = .eof then
    (t.src, true, { t with src := [], n := t.n + t.src.length })
  else
    ([], false, { t with src := [], err := some t.srcErr })

/-- Model of the scan loops' per-rune cursor advance (the successful
`ReadRune` followed by `t.n += int64(w)`): the decoded rune's `w` bytes leave
the stream and `w` is added to the consumed count. -/
def TextReader.bump (t : TextReader) (w : Nat) : TextReader :=
  { t with src := t.src.drop w, n := t.n + w }

/-! Helper lemmas. -/

/-- A decoded rune at a nonempty position has byte width at least 1. -/
theorem utf8DecodeFirst_width_pos (b : Nat) (rest : List Nat) :
    1 ≤ (utf8DecodeFirst (b :: rest)).2 := by
  simp only [utf8DecodeFirst]
  repeat' split
  all_goals simp

/-- Unsigned 16-bit round trip for both byte orders. -/
theorem uint16_putUint16 (ord : ByteOrder) (v : Nat) (h : v < 65536) :
    ord.uint16 (ord.putUint16 v) = v := by
  cases ord <;> simp [ByteOrder.uint16, ByteOrder.putUint16] <;> omega

/-- Unsigned 32-bit round trip for both byte orders. -/
theorem uint32_putUint32 (ord : ByteOrder) (v : Nat) (h : v < 4294967296) :
    ord.uint32 (ord.putUint32 v) = v := by
  cases ord <;> simp [ByteOrder.uint32, ByteOrder.putUint32] <;> omega

/-- Unsigned 64-bit round trip for both byte orders. -/
theorem uint64_putUint64 (ord : ByteOrder) (v : Nat) (h : v < 18446744073709551616) :
    ord.uint64 (ord.putUint64 v) = v := by
  cases ord <;> simp [ByteOrder.uint64, ByteOrder.putUint64] <;> omega

/-- Two's-complement 8-bit round trip. -/
theorem toInt8_toUint8 (x : Int) (h1 : -128 ≤ x) (h2 : x < 128) :
    toInt8 (toUint8 x) = x := by
  simp only [toInt8, toUint8]
  split <;> omega

/-- Two's-complement 16-bit round trip. -/
theorem toInt16_toUint16 (x : Int) (h1 : -32768 ≤ x) (h2 : x < 32768) :
    toInt16 (toUint16 x) = x := by
  simp only [toInt16, toUint16]
  split <;> omega

/-- Two's-complement 32-bit round trip. -/
theorem toInt32_toUint32 (x : Int) (h1 : -2147483648 ≤ x) (h2 : x < 2147483648) :
    toInt32 (toUint32 x) = x := by
  simp only [toInt32, toUint32]
  split <;> omega

/-- Two's-complement 64-bit round trip. -/
theorem toInt64_toUint64 (x : Int)
    (h1 : -9223372036854775808 ≤ x) (h2 : x < 9223372036854775808) :
    toInt64 (toUint64 x) = x := by
  simp only [toInt64, toUint64]
  split <;> omega

/-- Decoding the byte image of a representable value recovers the value, for
every supported type and both byte orders. -/
theorem readValue_writeValue (ord : ByteOrder) (v : NumValue) (h : v.valid) :
    readValue ord v.numType (writeValue ord v) = v := by
  cases v <;> simp only [NumValue.valid] at h <;>
    simp only [readValue, writeValue, NumValue.numType, List.getD]
  case vi8 x =>
    simp [toInt8_toUint8 x h.1 h.2]
  case vu8 x => simp
  case vi16 x =>
    rw [uint16_putUint16 ord _ (by simp only [toUint16]; omega),
      toInt16_toUint16 x h.1 h.2]
  case vu16 x => rw [uint16_putUint16 ord x h]
  case vi32 x =>
    rw [uint32_putUint32 ord _ (by simp only [toUint32]; omega),
      toInt32_toUint32 x h.1 h.2]
  case vu32 x => rw [uint32_putUint32 ord x h]
  case vi64 x =>
    rw [uint64_putUint64 ord _ (by simp only [toUint64]; omega),
      toInt64_toUint64 x h.1 h.2]
  case vu64 x => rw [uint64_putUint64 ord x h]
  case vf32 bits => rw [uint32_putUint32 ord bits h]
  case vf64 bits => rw [uint64_putUint64 ord bits h]

/-- The byte image of a value has exactly the width `NumberSize` assigns. -/
theorem writeValue_length (ord : ByteOrder) (v : NumValue) :
    (writeValue ord v).length = v.numType.size := by
  cases v <;> cases ord <;>
    simp [writeValue, NumValue.numType, NumType.size,
      ByteOrder.putUint16, ByteOrder.putUint32, ByteOrder.putUint64]

/-- Every supported numeric type has a positive `NumberSize` width. -/
theorem numTypeSize_pos (t : NumType) : 0 < t.size := by
  cases t <;> simp [NumType.size]

/-- A fresh `BinaryWriter` over an ideal sink after `SetByteOrder(ord)`. -/
def binWriterWith (ord : ByteOrder) : BinaryWriter :=
  { wbehav := [], sunk := [], ord := ord, n := 0, err := none }

/-- A fresh `BinaryReader` over the given bytes (clean end afterwards) after
`SetByteOrder(ord)`. -/
def binReaderWith (ord : ByteOrder) (src : List Nat) : BinaryReader :=
  { src := src, srcErr := .eof, ord := ord, n := 0, err := none }

/-- C2: for every supported numeric type, every byte order, and every
representable value `v` (0, extremes, -1, NaN/Inf bit patterns included),
`BinaryWriter.Number` emits the byte image `writeValue ord v`, reading those
bytes back with `BinaryReader.Number` under the same byte order succeeds and
yields `v` exactly (bit-for-bit for floats, which are carried as bit
patterns), and re-encoding the decoded value reproduces the original bytes. -/
theorem c2_number_roundtrip (ord : ByteOrder) (v : NumValue) (h : v.valid) :
    (binWriterWith ord).number (.val v) =
      .ret false { binWriterWith ord with
        sunk := writeValue ord v, n := (v.numType.size : Int) } ∧
    (binReaderWith ord (writeValue ord v)).number (.ptr v.numType) =
      .ret false (some v) { binReaderWith ord (writeValue ord v) with
        src := [], n := (v.numType.size : Int) } ∧
    writeValue ord (readValue ord v.numType (writeValue ord v)) =
      writeValue ord v := by
  have hsz : NumberSize (.val v) = v.numType.size := rfl
  have hpos : 0 < v.numType.size := numTypeSize_pos _
  have hlen : (writeValue ord v).length = v.numType.size := writeValue_length ord v
  refine ⟨?_, ?_, ?_⟩
  · simp only [BinaryWriter.number, binWriterWith, hsz]
    rw [if_neg (by simp), if_neg (by omega)]
    simp only [BinaryWriter.bytes, BinaryWriter.write]
    rw [if_neg (by simp)]
    simp [hlen]
  · simp only [BinaryReader.number, binReaderWith]
    rw [if_neg (by simp)]
    have hsz2 : NumberSize (.ptr v.numType) = v.numType.size := rfl
    rw [hsz2, if_neg (by omega)]
    simp only [BinaryReader.bytes]
    rw [if_neg (by simp), if_pos (by rw [hlen])]
    rw [← hlen, List.take_length, List.drop_length]
    simp [readValue_writeValue ord v h, hlen]
  · rw [readValue_writeValue ord v h]

/-- Witness for C2 at concrete inputs: uint32 `0x01020304` little-endian,
int64 `-1` big-endian, and the float32 quiet-NaN pattern `0x7FC00000`. -/
theorem c2_number_roundtrip_witness :
    ((binWriterWith .little).number (.val (.vu32 16909060)) =
        .ret false { binWriterWith .little with
          sunk := [4, 3, 2, 1], n := 4 } ∧
      (binReaderWith .little [4, 3, 2, 1]).number (.ptr .u32) =
        .ret false (some (.vu32 16909060))
          { binReaderWith .little [4, 3, 2, 1] with src := [], n := 4 }) ∧
    ((binReaderWith .big (writeValue .big (.vi64 (-1)))).number (.ptr .i64)) =
      .ret false (some (.vi64 (-1)))
        { binReaderWith .big (writeValue .big (.vi64 (-1))) with
          src := [], n := 8 } ∧
    ((binReaderWith .little (writeValue .little (.vf32 2143289344))).number
        (.ptr .f32)) =
      .ret false (some (.vf32 2143289344))
        { binReaderWith .little (writeValue .little (.vf32 2143289344)) with
          src := [], n := 4 } := by
  have h1 := c2_number_roundtrip .little (.vu32 16909060) (by norm_num [NumValue.valid])
  have h2 := c2_number_roundtrip .big (.vi64 (-1)) (by norm_num [NumValue.valid])
  have h3 := c2_number_roundtrip .little (.vf32 2143289344) (by norm_num [NumValue.valid])
  refine ⟨⟨?_, ?_⟩, ?_, ?_⟩
  · have := h1.1
    simpa [writeValue, ByteOrder.putUint32, NumValue.numType, NumType.size] using this
  · have := h1.2.1
    simpa [writeValue, ByteOrder.putUint32, NumValue.numType, NumType.size] using this
  · have := h2.2.1
    simpa [NumValue.numType, NumType.size] using this
  · have := h3.2.1
    simpa [NumValue.numType, NumType.size] using this

/-- C1: once a fault of any kind is latched on a cursor, every subsequent
operation returns its designated failure value (-1 or ("",false)/false for text
methods, true for binary reader/writer methods) and leaves the whole cursor
state — underlying source/sink position and the consumed count N — unchanged. -/
theorem c1_sticky_fault (t : TextReader) (r : BinaryReader) (w : BinaryWriter)
    (e1 e2 e3 : GoErr)
    (ht : t.err = some e1) (hr : r.err = some e2) (hw : w.err = some e3) :
    t.next = (-1, t) ∧
    t.mustNext = (-1, t) ∧
    (∀ s, t.is s = (false, t)) ∧
    (∀ f, t.isAny f = ([], false, t)) ∧
    (∀ f, t.skip f = (false, t)) ∧
    (∀ v, t.until v = ([], false, t)) ∧
    (∀ f, t.untilAny f = ([], false, t)) ∧
    t.untilEOF = ([], false, t) ∧
    (∀ m e, r.add m e = (true, r)) ∧
    (∀ k, r.bytes k = (true, [], r)) ∧
    (∀ a, r.number a = .ret true none r) ∧
    r.all = ([], true, r) ∧
    (∀ m e, w.add m e = (true, w)) ∧
    (∀ p, w.bytes p = (true, w)) ∧
    (∀ a, w.number a = .ret true w) := by
  simp [TextReader.next, TextReader.mustNext, TextReader.is, TextReader.isAny,
    TextReader.skip, TextReader.until, TextReader.untilAny, TextReader.untilEOF,
    BinaryReader.add, BinaryReader.bytes, BinaryReader.number, BinaryReader.all,
    BinaryWriter.add, BinaryWriter.bytes, BinaryWriter.number, ht, hr, hw]

/-- Witness for C1 on concrete faulted cursors. -/
theorem c1_sticky_fault_witness :
    ({ src := [1, 2], srcErr := .eof, bufSize := 4096, n := 5,
        err := some (.ioError 3) } : TextReader).until 59 =
      ([], false,
        { src := [1, 2], srcErr := .eof, bufSize := 4096, n := 5,
          err := some (.ioError 3) }) ∧
    ({ src := [9], srcErr := .eof, ord := .little, n := 2,
        err := some .errUnexpectedEOF } : BinaryReader).bytes 1 =
      (true, [],
        { src := [9], srcErr := .eof, ord := .little, n := 2,
          err := some .errUnexpectedEOF }) ∧
    ({ wbehav := [], sunk := [], ord := .big, n := 0,
        err := some (.ioError 1) } : BinaryWriter).number (.val (.vu8 7)) =
      .ret true
        { wbehav := [], sunk := [], ord := .big, n := 0,
          err := some (.ioError 1) } := by
  have h := c1_sticky_fault
    { src := [1, 2], srcErr := .eof, bufSize := 4096, n := 5,
      err := some (.ioError 3) }
    { src := [9], srcErr := .eof, ord := .little, n := 2,
      err := some .errUnexpectedEOF }
    { wbehav := [], sunk := [], ord := .big, n := 0, err := some (.ioError 1) }
    (.ioError 3) .errUnexpectedEOF (.ioError 1) rfl rfl rfl
  exact ⟨h.2.2.2.2.2.1 59, h.2.2.2.2.2.2.2.2.2.1 1,
    h.2.2.2.2.2.2.2.2.2.2.2.2.2.2 (.val (.vu8 7))⟩

/-- C5: a `BinaryReader.Bytes` request of `k` bytes against a source that ends
cleanly with fewer than `k` bytes fails — never a silent partial success —
latching an end-of-input-class fault (`ErrUnexpectedEOF` when some bytes were
obtained, `EOF` when none were), and N grows by exactly the bytes actually
obtained; a 10-byte read against a 6-byte stream latches `ErrUnexpectedEOF`
and advances N by 6. -/
theorem c5_short_read (r : BinaryReader) (k : Nat)
    (h0 : r.err = none) (h1 : r.srcErr = .eof) (h2 : r.src.length < k) :
    r.bytes k =
      (true, r.src,
        { r with
            src := [],
            n := r.n + r.src.length,
            err := some (if r.src.length = 0 then .eof else .errUnexpectedEOF) }) ∧
    (newBinaryReader [10, 20, 30, 40, 50, 60] .eof).bytes 10 =
      (true, [10, 20, 30, 40, 50, 60],
        { (newBinaryReader [10, 20, 30, 40, 50, 60] .eof) with
          src := [], n := 6, err := some .errUnexpectedEOF }) := by
  constructor
  · simp only [BinaryReader.bytes, h0, h1]
    rw [if_neg (by simp), if_neg (by omega)]
    simp
  · decide

/-- Witness for C5: a 7-byte read against a 3-byte stream. -/
theorem c5_short_read_witness :
    (newBinaryReader [1, 2, 3] .eof).bytes 7 =
      (true, [1, 2, 3],
        { (newBinaryReader [1, 2, 3] .eof) with
          src := [], n := 3, err := some .errUnexpectedEOF }) := by
  obtain ⟨h1, -⟩ := c5_short_read (newBinaryReader [1, 2, 3] .eof) 7 rfl rfl
    (by decide)
  simpa [newBinaryReader] using h1

/-- C6: `TextReader.Is` is a non-destructive lookahead — with no latched fault,
a failing match leaves the underlying stream position and the consumed count
exactly as before, a succeeding match consumes exactly `len(s)` bytes (which
were the next bytes of the stream), and the empty string always matches
without consuming; `Is("GET")` against `"GET /x"` succeeds advancing 3 bytes
and against `"POST /x"` fails advancing 0. -/
theorem c6_is_lookahead (t : TextReader) (s : List Nat) (h0 : t.err = none) :
    ((t.is s).1 = false → (t.is s).2.src = t.src ∧ (t.is s).2.n = t.n) ∧
    ((t.is s).1 = true →
      (t.is s).2.src = t.src.drop s.length ∧ (t.is s).2.n = t.n + s.length ∧
      t.src.take s.length = s) ∧
    t.is [] = (true, t) ∧
    (newTextReader [71, 69, 84, 32, 47, 120] .eof).is [71, 69, 84] =
      (true,
        { (newTextReader [71, 69, 84, 32, 47, 120] .eof) with
          src := [32, 47, 120], n := 3 }) ∧
    (newTextReader [80, 79, 83, 84, 32, 47, 120] .eof).is [71, 69, 84] =
      (false, newTextReader [80, 79, 83, 84, 32, 47, 120] .eof) := by
  refine ⟨?_, ?_, ?_, by decide, by decide⟩
  · intro hf
    by_cases hs : s = []
    · subst hs
      simp [TextReader.is, h0] at hf
    · rcases hp : t.peek s.length with ⟨b, e⟩
      simp only [TextReader.is, h0, hs, ne_eq, not_false_eq_true, reduceIte,
        if_false, hp] at hf ⊢
      rcases e with - | e'
      · simp only [not_true_eq_false, reduceIte, ne_eq] at hf ⊢
        by_cases hb : b = s
        · simp [hb] at hf
        · simp [hb]
      · by_cases hee : some e' = some GoErr.eof <;> simp [hee]
  · intro hok
    by_cases hs : s = []
    · subst hs
      simp [TextReader.is, h0]
    · rcases hp : t.peek s.length with ⟨b, e⟩
      simp only [TextReader.is, h0, hs, ne_eq, not_false_eq_true, reduceIte,
        if_false, hp] at hok ⊢
      rcases e with - | e'
      · simp only [not_true_eq_false, reduceIte, ne_eq] at hok ⊢
        by_cases hb : b = s
        · subst hb
          simp only [not_true_eq_false, reduceIte]
          refine ⟨by simp, by simp, ?_⟩
          simp only [TextReader.peek] at hp
          by_cases h1 : t.bufSize < b.length
          · rw [if_pos h1] at hp
            simp at hp
          · rw [if_neg h1] at hp
            by_cases h2 : t.src.length < b.length
            · rw [if_pos h2] at hp
              simp at hp
            · rw [if_neg h2] at hp
              simp at hp
              exact hp
        · simp [hb] at hok
      · by_cases hee : some e' = some GoErr.eof <;> simp [hee] at hok
  · simp [TextReader.is, h0]

/-- Witness for C6: the failing `Is("GET")` against `"POST"` moves nothing. -/
theorem c6_is_lookahead_witness :
    ((newTextReader [80, 79, 83, 84] .eof).is [71, 69, 84]).2.src =
      [80, 79, 83, 84] ∧
    ((newTextReader [80, 79, 83, 84] .eof).is [71, 69, 84]).2.n = 0 := by
  have h := c6_is_lookahead (newTextReader [80, 79, 83, 84] .eof) [71, 69, 84] rfl
  exact h.1 (by decide)

/-- C7 counterexample: with an underlying source that fails its first read
with a genuine I/O error, `Is("a")` does return "no match", but the I/O error
is latched as the cursor's fault — it is not treated like clean end-of-input,
refuting the claim that no fault is left on the cursor. -/
theorem c7_counterexample :
    ({ src := [], srcErr := .ioError 0, bufSize := 4096, n := 0,
        err := none } : TextReader).is [97] =
      (false,
        { src := [], srcErr := .ioError 0, bufSize := 4096, n := 0,
          err := some (.ioError 0) }) := by decide

/-- C7 amended: during `TextReader.Is`, only a clean end-of-input from the
peek is converted to "no match with no fault"; a genuine I/O error also
returns "no match" but is latched as the cursor's fault (the stream position
and count are untouched either way). -/
theorem c7_is_peek_error (t : TextReader) (s : List Nat)
    (h0 : t.err = none) (hs : s ≠ []) (hbuf : s.length ≤ t.bufSize)
    (hshort : t.src.length < s.length) :
    (t.srcErr = .eof → t.is s = (false, t)) ∧
    (∀ k, t.srcErr = .ioError k →
      t.is s = (false, { t with err := some (.ioError k) })) := by
  have hpk : t.peek s.length = (t.src, some t.srcErr) := by
    simp only [TextReader.peek]
    rw [if_neg (by omega), if_pos hshort]
  constructor
  · intro heof
    simp only [TextReader.is, h0, hs, ne_eq, not_false_eq_true, reduceIte,
      if_false, hpk, heof]
    simp only [not_true_eq_false, reduceIte, reduceCtorEq, not_false_eq_true]
    rcases t with ⟨src, srcErr, bufSize, n, err⟩
    simp only [TextReader.mk.injEq] at h0 ⊢
    simp [h0]
    exact (by simpa using heof : srcErr = GoErr.eof).symm
  · intro k hio
    simp only [TextReader.is, h0, hs, ne_eq, not_false_eq_true, reduceIte,
      if_false, hpk, hio]
    simp

/-- Witness for C7 amended: clean-EOF peek against a too-short stream leaves
the cursor fault-free, while a genuine I/O error latches. -/
theorem c7_is_peek_error_witness :
    (newTextReader [97] .eof).is [97, 98] = (false, newTextReader [97] .eof) ∧
    ({ src := [97], srcErr := .ioError 5, bufSize := 4096, n := 0,
        err := none } : TextReader).is [97, 98] =
      (false,
        { src := [97], srcErr := .ioError 5, bufSize := 4096, n := 0,
          err := some (.ioError 5) }) := by
  have h1 := c7_is_peek_error (newTextReader [97] .eof) [97, 98] rfl
    (by decide) (by decide) (by decide)
  have h2 := c7_is_peek_error
    { src := [97], srcErr := .ioError 5, bufSize := 4096, n := 0, err := none }
    [97, 98] rfl (by decide) (by decide) (by decide)
  exact ⟨h1.1 rfl, h2.2 5 rfl⟩

/-- C8 counterexample: on a cursor that already carries a latched fault,
`Number` with an unsupported type does NOT panic — the sticky-fault guard runs
first and returns the failure value with the state untouched — refuting the
claim that the panic happens for every cursor. -/
theorem c8_counterexample :
    ({ src := [1, 2], srcErr := .eof, ord := .little, n := 0,
        err := some (.ioError 7) } : BinaryReader).number .invalid =
      .ret true none
        { src := [1, 2], srcErr := .eof, ord := .little, n := 0,
          err := some (.ioError 7) } := by decide

/-- C8 amended: `SetByteOrder(nil)` always panics without touching the state
(in particular the err slot stays unset); `Number` with an unsupported type
panics — without setting err — on a fault-free cursor, but on an
already-faulted cursor it returns its designated failure value without
panicking and without touching the state. -/
theorem c8_contract_violations :
    (∀ r : BinaryReader, r.setByteOrder none = .panicked r) ∧
    (∀ w : BinaryWriter, w.setByteOrder none = .panicked w) ∧
    (∀ r : BinaryReader, r.err = none → r.number .invalid = .panicked r) ∧
    (∀ w : BinaryWriter, w.err = none → w.number .invalid = .panicked w) ∧
    (∀ (r : BinaryReader) (e : GoErr), r.err = some e →
      r.number .invalid = .ret true none r) ∧
    (∀ (w : BinaryWriter) (e : GoErr), w.err = some e →
      w.number .invalid = .ret true w) := by
  refine ⟨fun r => rfl, fun w => rfl, ?_, ?_, ?_, ?_⟩
  · intro r h0
    simp [BinaryReader.number, h0, NumberSize]
  · intro w h0
    simp [BinaryWriter.number, h0, NumberSize]
  · intro r e h
    simp [BinaryReader.number, h]
  · intro w e h
    simp [BinaryWriter.number, h]

/-- Witness for C8 amended at concrete cursors. -/
theorem c8_contract_violations_witness :
    (newBinaryReader [3] .eof).setByteOrder none =
      .panicked (newBinaryReader [3] .eof) ∧
    (newBinaryReader [3] .eof).number .invalid =
      .panicked (newBinaryReader [3] .eof) ∧
    (newBinaryWriter []).number .invalid = .panicked (newBinaryWriter []) := by
  have h := c8_contract_violations
  exact ⟨h.1 (newBinaryReader [3] .eof),
    h.2.2.1 (newBinaryReader [3] .eof) rfl, h.2.2.2.1 (newBinaryWriter []) rfl⟩

/-- C9: a short `Write` with a nil error makes `BinaryWriter.Bytes` report
failure and add the partial count to N, yet leaves the latched error nil, so
`Err()` reports nothing and a subsequent `Bytes` on the same cursor proceeds
normally (here: succeeds against a now-ideal sink) instead of no-opping. -/
theorem c9_short_write_nil_error (w : BinaryWriter) (p : List Nat) (c : Nat)
    (h0 : w.err = none) (hb : w.wbehav = [(c, none)]) (hc : c < p.length) :
    w.bytes p =
      (true,
        { w with
            wbehav := [],
            sunk := w.sunk ++ p.take c,
            n := w.n + c,
            err := none }) ∧
    (∀ q : List Nat,
      (w.bytes p).2.bytes q =
        (false,
          { w with
              wbehav := [],
              sunk := w.sunk ++ p.take c ++ q,
              n := w.n + c + q.length,
              err := none })) := by
  have hmin : min c p.length = c := Nat.min_eq_left (Nat.le_of_lt hc)
  have h1 : w.bytes p =
      (true,
        { w with
            wbehav := [],
            sunk := w.sunk ++ p.take c,
            n := w.n + c,
            err := none }) := by
    simp only [BinaryWriter.bytes, BinaryWriter.write, h0, hb, hmin]
    simp [hc]
  refine ⟨h1, fun q => ?_⟩
  rw [h1]
  simp [BinaryWriter.bytes, BinaryWriter.write]

/-- Witness for C9: a sink that takes 2 of 4 bytes with nil error. -/
theorem c9_short_write_nil_error_witness :
    (newBinaryWriter [(2, none)]).bytes [5, 6, 7, 8] =
      (true,
        { (newBinaryWriter [(2, none)]) with
            wbehav := [], sunk := [5, 6], n := 2, err := none }) ∧
    ((newBinaryWriter [(2, none)]).bytes [5, 6, 7, 8]).2.bytes [9] =
      (false,
        { (newBinaryWriter [(2, none)]) with
            wbehav := [], sunk := [5, 6, 9], n := 3, err := none }) := by
  have h := c9_short_write_nil_error (newBinaryWriter [(2, none)]) [5, 6, 7, 8]
    2 rfl rfl (by decide)
  constructor
  · have := h.1
    simpa [newBinaryWriter] using this
  · have := h.2 [9]
    simpa [newBinaryWriter] using this

/-- C10: the reader's contract-violation panic is not state-preserving —
`BinaryReader.Number` with a non-pointer value of an accepted type passes the
size check, reads the type's width from the source, advances N by it, and only
then panics — whereas `BinaryWriter.Number` with a pointer argument panics
before writing anything, leaving the writer untouched. -/
theorem c10_number_panic_state (r : BinaryReader) (v : NumValue)
    (h0 : r.err = none) (hlen : v.numType.size ≤ r.src.length) :
    r.number (.val v) =
      .panicked
        { r with
            src := r.src.drop v.numType.size,
            n := r.n + v.numType.size } ∧
    (∀ (w : BinaryWriter) (t : NumType), w.err = none →
      w.number (.ptr t) = .panicked w) := by
  constructor
  · have hsz : NumberSize (.val v) = v.numType.size := rfl
    have hpos : 0 < v.numType.size := numTypeSize_pos _
    simp only [BinaryReader.number, h0, hsz]
    rw [if_neg (by simp), if_neg (by omega)]
    simp only [BinaryReader.bytes, h0]
    rw [if_neg (by simp), if_pos hlen]
  · intro w t hw
    have hsz : NumberSize (.ptr t) = t.size := rfl
    have hpos : 0 < t.size := numTypeSize_pos _
    simp only [BinaryWriter.number, hw, hsz]
    rw [if_neg (by simp), if_neg (by omega)]

/-- Witness for C10: reading an `int16` value argument from a 3-byte source
panics after consuming 2 bytes; writing through a `*u32` argument panics with
the writer untouched. -/
theorem c10_number_panic_state_witness :
    (newBinaryReader [1, 2, 3] .eof).number (.val (.vi16 0)) =
      .panicked
        { (newBinaryReader [1, 2, 3] .eof) with src := [3], n := 2 } ∧
    (newBinaryWriter []).number (.ptr .u32) =
      .panicked (newBinaryWriter []) := by
  have h := c10_number_panic_state (newBinaryReader [1, 2, 3] .eof) (.vi16 0)
    rfl (by decide)
  constructor
  · have := h.1
    simpa [newBinaryReader] using this
  · exact h.2 (newBinaryWriter []) .u32 rfl

/-- If the source ends cleanly and `Until`'s loop reports failure, the latched
fault is `ErrUnexpectedEOF` (clean EOF is upgraded), for any sufficient fuel. -/
theorem untilGo_eof_fault (v : Int) :
    ∀ (fuel : Nat) (t : TextReader) (acc : List Nat),
      t.src.length < fuel → t.srcErr = .eof →
      (untilGo v fuel t acc).2.1 = false →
      (untilGo v fuel t acc).2.2.err = some .errUnexpectedEOF := by
  intro fuel
  induction fuel with
  | zero => intro t acc h _ _; omega
  | succ fuel ih =>
    intro t acc hlt heof hfail
    cases hsrc : t.src with
    | nil =>
      simp only [untilGo, hsrc, heof] at hfail ⊢
      simp
    | cons b rest =>
      have hw := utf8DecodeFirst_width_pos b rest
      rcases hdec : utf8DecodeFirst (b :: rest) with ⟨c, w⟩
      rw [hdec] at hw
      simp only [untilGo, hsrc, hdec] at hfail ⊢
      by_cases hcv : c = v
      · rw [if_pos hcv] at hfail
        simp at hfail
      · rw [if_neg hcv] at hfail ⊢
        rw [hsrc] at hlt
        refine ih _ _ ?_ (by simpa using heof) hfail
      
        simp only [List.length_drop]
        simp only [List.length_cons] at hlt ⊢
        omega

/-- Same upgrade for `UntilAny`'s loop. -/
theorem untilAnyGo_eof_fault (f : Int → Bool) :
    ∀ (fuel : Nat) (t : TextReader) (acc : List Nat),
      t.src.length < fuel → t.srcErr = .eof →
      (untilAnyGo f fuel t acc).2.1 = false →
      (untilAnyGo f fuel t acc).2.2.err = some .errUnexpectedEOF := by
  intro fuel
  induction fuel with
  | zero => intro t acc h _ _; omega
  | succ fuel ih =>
    intro t acc hlt heof hfail
    cases hsrc : t.src with
    | nil =>
      simp only [untilAnyGo, hsrc, heof] at hfail ⊢
      simp
    | cons b rest =>
      have hw := utf8DecodeFirst_width_pos b rest
      rcases hdec : utf8DecodeFirst (b :: rest) with ⟨c, w⟩
      rw [hdec] at hw
      simp only [untilAnyGo, hsrc, hdec] at hfail ⊢
      by_cases hcv : f c = true
      · rw [if_pos hcv] at hfail
        simp at hfail
      · rw [if_neg hcv] at hfail ⊢
        rw [hsrc] at hlt
        refine ih _ _ ?_ (by simpa using heof) hfail
        simp only [List.length_drop]
        simp only [List.length_cons] at hlt ⊢
        omega

/-- Model of `Until`'s loop at an exhausted source: the read error latches,
with clean EOF upgraded to `ErrUnexpectedEOF`, failing with an empty result. -/
theorem untilGo_nil (v : Int) (fuel : Nat) (t : TextReader) (acc : List Nat)
    (hsrc : t.src = []) :
    untilGo v (fuel + 1) t acc =
      ([], false,
        { t with
            err := some (if t.srcErr = .eof then .errUnexpectedEOF
              else t.srcErr) }) := by
  rcases t with ⟨src0, se, bs, n0, e0⟩
  simp only at hsrc
  subst hsrc
  simp only [untilGo]
  split <;> rename_i h <;> simp [h]

/-- Model of `Until`'s loop at a nonempty source: one decoded rune either
equals the target — ending the scan with the rune consumed, excluded from the
result, and its width not counted — or is accumulated and counted. -/
theorem untilGo_cons (v : Int) (fuel : Nat) (t : TextReader) (acc : List Nat)
    (b : Nat) (rest : List Nat) (hsrc : t.src = b :: rest)
    (c : Int) (w : Nat) (hdec : utf8DecodeFirst (b :: rest) = (c, w)) :
    untilGo v (fuel + 1) t acc =
      if c = v then (acc, true, { t with src := (b :: rest).drop w })
      else
        untilGo v fuel { t with src := (b :: rest).drop w, n := t.n + w }
          (acc ++ utf8Encode c) := by
  rcases t with ⟨src0, se, bs, n0, e0⟩
  simp only at hsrc
  subst hsrc
  simp only [untilGo, hdec]

/-- The accumulator of `Until`'s loop only prepends to the eventual result:
a successful scan returns `acc ++` the result from an empty accumulator, and
the success flag and final state do not depend on `acc`. -/
theorem untilGo_acc (v : Int) :
    ∀ (fuel : Nat) (t : TextReader) (acc : List Nat),
      untilGo v fuel t acc =
        (if (untilGo v fuel t []).2.1 then acc ++ (untilGo v fuel t []).1
         else (untilGo v fuel t []).1,
         (untilGo v fuel t []).2.1, (untilGo v fuel t []).2.2) := by
  intro fuel
  induction fuel with
  | zero => intro t acc; simp [untilGo]
  | succ fuel ih =>
    intro t acc
    cases hsrc : t.src with
    | nil =>
      rw [untilGo_nil v fuel t acc hsrc, untilGo_nil v fuel t [] hsrc]
      simp
    | cons b rest =>
      rcases hdec : utf8DecodeFirst (b :: rest) with ⟨c, w⟩
      rw [untilGo_cons v fuel t acc b rest hsrc c w hdec,
        untilGo_cons v fuel t [] b rest hsrc c w hdec]
      by_cases hcv : c = v
      · simp [hcv]
      · rw [if_neg hcv, if_neg hcv]
        simp only [List.nil_append]
        rw [ih { t with src := (b :: rest).drop w, n := t.n + w }
            (acc ++ utf8Encode c),
          ih { t with src := (b :: rest).drop w, n := t.n + w } (utf8Encode c)]
        cases hok : (untilGo v fuel
            { t with src := (b :: rest).drop w, n := t.n + w } []).2.1 <;>
          simp [hok, List.append_assoc]

/-- Any fuel beyond the remaining byte count gives `Until`'s loop the same
result: the loop consumes at least one byte per step. -/
theorem untilGo_fuel (v : Int) :
    ∀ (f1 f2 : Nat) (t : TextReader) (acc : List Nat),
      t.src.length < f1 → t.src.length < f2 →
      untilGo v f1 t acc = untilGo v f2 t acc := by
  intro f1
  induction f1 with
  | zero => intro f2 t acc h1 h2; omega
  | succ f1 ih =>
    intro f2 t acc h1 h2
    cases f2 with
    | zero => omega
    | succ f2 =>
      cases hsrc : t.src with
      | nil => rw [untilGo_nil v f1 t acc hsrc, untilGo_nil v f2 t acc hsrc]
      | cons b rest =>
        rcases hdec : utf8DecodeFirst (b :: rest) with ⟨c, w⟩
        have hw := utf8DecodeFirst_width_pos b rest
        rw [hdec] at hw
        rw [untilGo_cons v f1 t acc b rest hsrc c w hdec,
          untilGo_cons v f2 t acc b rest hsrc c w hdec]
        by_cases hcv : c = v
        · rw [if_pos hcv, if_pos hcv]
        · rw [if_neg hcv, if_neg hcv]
          rw [hsrc] at h1 h2
          simp only [List.length_cons] at h1 h2
          apply ih
          · simp only [List.length_drop, List.length_cons]
            omega
          · simp only [List.length_drop, List.length_cons]
            omega

/-- Model of `UntilAny`'s loop at an exhausted source: as for `Until`. -/
theorem untilAnyGo_nil (f : Int → Bool) (fuel : Nat) (t : TextReader)
    (acc : List Nat) (hsrc : t.src = []) :
    untilAnyGo f (fuel + 1) t acc =
      ([], false,
        { t with
            err := some (if t.srcErr = .eof then .errUnexpectedEOF
              else t.srcErr) }) := by
  rcases t with ⟨src0, se, bs, n0, e0⟩
  simp only at hsrc
  subst hsrc
  simp only [untilAnyGo]
  split <;> rename_i h <;> simp [h]

/-- Model of `UntilAny`'s loop at a nonempty source: one decoded rune either
satisfies the predicate — ending the scan with the rune consumed, excluded
from the result, and its width not counted — or is accumulated and counted. -/
theorem untilAnyGo_cons (f : Int → Bool) (fuel : Nat) (t : TextReader)
    (acc : List Nat) (b : Nat) (rest : List Nat) (hsrc : t.src = b :: rest)
    (c : Int) (w : Nat) (hdec : utf8DecodeFirst (b :: rest) = (c, w)) :
    untilAnyGo f (fuel + 1) t acc =
      if f c then (acc, true, { t with src := (b :: rest).drop w })
      else
        untilAnyGo f fuel { t with src := (b :: rest).drop w, n := t.n + w }
          (acc ++ utf8Encode c) := by
  rcases t with ⟨src0, se, bs, n0, e0⟩
  simp only at hsrc
  subst hsrc
  simp only [untilAnyGo, hdec]

/-- The accumulator of `UntilAny`'s loop only prepends to the result. -/
theorem untilAnyGo_acc (f : Int → Bool) :
    ∀ (fuel : Nat) (t : TextReader) (acc : List Nat),
      untilAnyGo f fuel t acc =
        (if (untilAnyGo f fuel t []).2.1 then
          acc ++ (untilAnyGo f fuel t []).1
         else (untilAnyGo f fuel t []).1,
         (untilAnyGo f fuel t []).2.1, (untilAnyGo f fuel t []).2.2) := by
  intro fuel
  induction fuel with
  | zero => intro t acc; simp [untilAnyGo]
  | succ fuel ih =>
    intro t acc
    cases hsrc : t.src with
    | nil =>
      rw [untilAnyGo_nil f fuel t acc hsrc, untilAnyGo_nil f fuel t [] hsrc]
      simp
    | cons b rest =>
      rcases hdec : utf8DecodeFirst (b :: rest) with ⟨c, w⟩
      rw [untilAnyGo_cons f fuel t acc b rest hsrc c w hdec,
        untilAnyGo_cons f fuel t [] b rest hsrc c w hdec]
      by_cases hcv : f c = true
      · simp [hcv]
      · rw [if_neg hcv, if_neg hcv]
        simp only [List.nil_append]
        rw [ih { t with src := (b :: rest).drop w, n := t.n + w }
            (acc ++ utf8Encode c),
          ih { t with src := (b :: rest).drop w, n := t.n + w } (utf8Encode c)]
        cases hok : (untilAnyGo f fuel
            { t with src := (b :: rest).drop w, n := t.n + w } []).2.1 <;>
          simp [hok, List.append_assoc]

/-- Any fuel beyond the remaining byte count gives `UntilAny`'s loop the same
result. -/
theorem untilAnyGo_fuel (f : Int → Bool) :
    ∀ (f1 f2 : Nat) (t : TextReader) (acc : List Nat),
      t.src.length < f1 → t.src.length < f2 →
      untilAnyGo f f1 t acc = untilAnyGo f f2 t acc := by
  intro f1
  induction f1 with
  | zero => intro f2 t acc h1 h2; omega
  | succ f1 ih =>
    intro f2 t acc h1 h2
    cases f2 with
    | zero => omega
    | succ f2 =>
      cases hsrc : t.src with
      | nil =>
        rw [untilAnyGo_nil f f1 t acc hsrc, untilAnyGo_nil f f2 t acc hsrc]
      | cons b rest =>
        rcases hdec : utf8DecodeFirst (b :: rest) with ⟨c, w⟩
        have hw := utf8DecodeFirst_width_pos b rest
        rw [hdec] at hw
        rw [untilAnyGo_cons f f1 t acc b rest hsrc c w hdec,
          untilAnyGo_cons f f2 t acc b rest hsrc c w hdec]
        by_cases hcv : f c = true
        · rw [if_pos hcv, if_pos hcv]
        · rw [if_neg hcv, if_neg hcv]
          rw [hsrc] at h1 h2
          simp only [List.length_cons] at h1 h2
          apply ih
          · simp only [List.length_drop, List.length_cons]
            omega
          · simp only [List.length_drop, List.length_cons]
            omega

/-- C3 counterexample: scanning `"abc;def"` for `';'` leaves the consumed
count at 3 — the terminator's byte is consumed from the stream but its width
is NOT added to N — refuting the claimed count of 4 ("abc;"). -/
theorem c3_counterexample :
    ((newTextReader [97, 98, 99, 59, 100, 101, 102] .eof).until 59).2.2.n = 3 ∧
    ¬ ((newTextReader [97, 98, 99, 59, 100, 101, 102] .eof).until 59).2.2.n = 4 := by
  decide

/-- C3 amended: for every stream, `Until(target)` accumulates characters until
one equals the target — a rune equal to the target ends the scan consumed from
the stream, excluded from the result, and with its byte width NOT added to N,
while any other rune is appended to the result with its width added to N and
the scan continues on the advanced cursor; reaching end-of-input first latches
`ErrUnexpectedEOF`, not a clean stop; on `"abc;def"` it returns `"abc"` with
the cursor at `"def"` and N = 3 (not 4). -/
theorem c3_until_behavior (t : TextReader) (v : Int) (h0 : t.err = none) :
    (∀ b rest c w, t.src = b :: rest → utf8DecodeFirst (b :: rest) = (c, w) →
      (c = v →
        t.until v = ([], true, { t with src := (b :: rest).drop w })) ∧
      (c ≠ v →
        t.until v =
          (if ((t.bump w).until v).2.1 then
            utf8Encode c ++ ((t.bump w).until v).1
          else ((t.bump w).until v).1,
           ((t.bump w).until v).2.1, ((t.bump w).until v).2.2))) ∧
    (t.srcErr = .eof → (t.until v).2.1 = false →
      (t.until v).2.2.err = some .errUnexpectedEOF) ∧
    (newTextReader [97, 98, 99, 59, 100, 101, 102] .eof).until 59 =
      ([97, 98, 99], true,
        { (newTextReader [97, 98, 99, 59, 100, 101, 102] .eof) with
          src := [100, 101, 102], n := 3 }) := by
  have hat : t.until v = untilGo v (t.src.length + 1) t [] := by
    simp [TextReader.until, h0]
  refine ⟨?_, ?_, by decide⟩
  · intro b rest c w hsrc hdec
    have hw := utf8DecodeFirst_width_pos b rest
    rw [hdec] at hw
    have hbump : t.bump w = { t with src := (b :: rest).drop w, n := t.n + w } := by
      simp [TextReader.bump, hsrc]
    constructor
    · intro hcv
      rw [hat, hsrc, untilGo_cons v (b :: rest).length t [] b rest hsrc c w hdec,
        if_pos hcv]
    · intro hcv
      rw [hat, hsrc, untilGo_cons v (b :: rest).length t [] b rest hsrc c w hdec,
        if_neg hcv]
      simp only [List.nil_append]
      rw [untilGo_acc v (b :: rest).length
        { t with src := (b :: rest).drop w, n := t.n + w } (utf8Encode c)]
      have hadv : (t.bump w).until v =
          untilGo v (b :: rest).length
            { t with src := (b :: rest).drop w, n := t.n + w } [] := by
        rw [hbump]
        have hg : ({ t with
              src := (b :: rest).drop w, n := t.n + w } : TextReader).until v =
            untilGo v (((b :: rest).drop w).length + 1)
              { t with src := (b :: rest).drop w, n := t.n + w } [] := by
          simp [TextReader.until, h0]
        rw [hg]
        apply untilGo_fuel
        · simp only [List.length_drop, List.length_cons]
          omega
        · simp only [List.length_drop, List.length_cons]
          omega
      rw [hadv]
  · intro heof hfail
    rw [hat] at hfail ⊢
    exact untilGo_eof_fault v (t.src.length + 1) t [] (by omega) heof hfail

/-- Witness for C3 amended: the terminator-consumption step on `";a"`, the
accumulation step on `"a;"`, and the unexpected-EOF latch on `"ab"`. -/
theorem c3_until_behavior_witness :
    (newTextReader [59, 97] .eof).until 59 =
      ([], true, { (newTextReader [59, 97] .eof) with src := [97] }) ∧
    (newTextReader [97, 59] .eof).until 59 =
      ([97], true,
        { (newTextReader [97, 59] .eof) with src := [], n := 1 }) ∧
    ((newTextReader [97, 98] .eof).until 59).2.2.err =
      some .errUnexpectedEOF := by
  have h1 := c3_until_behavior (newTextReader [59, 97] .eof) 59 rfl
  have h2 := c3_until_behavior (newTextReader [97, 59] .eof) 59 rfl
  have h3 := c3_until_behavior (newTextReader [97, 98] .eof) 59 rfl
  refine ⟨?_, ?_, h3.2.1 rfl (by decide)⟩
  · have := (h1.1 59 [97] 59 1 rfl (by decide)).1 rfl
    simpa using this
  · have := (h2.1 97 [59] 97 1 rfl (by decide)).2 (by decide)
    simpa [TextReader.bump] using this

/-- C4 counterexample: after `UntilAny` stops at `';'` in `"ab;cd"`, the next
read returns `'c'` (99), not the matching `';'` (59) — the matching character
was consumed by the scan and is NOT left available for the next read,
refuting the claim. -/
theorem c4_counterexample :
    (((newTextReader [97, 98, 59, 99, 100] .eof).untilAny
        (fun c => c == 59)).2.2.next).1 = 99 ∧
    ¬ (((newTextReader [97, 98, 59, 99, 100] .eof).untilAny
        (fun c => c == 59)).2.2.next).1 = 59 := by decide

/-- C4 amended: for every stream and predicate, `UntilAny(predicate)`
accumulates characters until one satisfies the predicate — a matching rune
ends the scan consumed from the stream (the loop does not unread it, so it is
NOT available to the next read), excluded from the result, its width not added
to N, while a non-matching rune is appended to the result with its width added
to N and the scan continues; end-of-input before any match latches
`ErrUnexpectedEOF`; on `"ab;cd"` the scan returns `"ab"`, and the next read
yields `'c'`, the character after the match. -/
theorem c4_untilAny_behavior (t : TextReader) (f : Int → Bool)
    (h0 : t.err = none) :
    (∀ b rest c w, t.src = b :: rest → utf8DecodeFirst (b :: rest) = (c, w) →
      (f c = true →
        t.untilAny f = ([], true, { t with src := (b :: rest).drop w })) ∧
      (f c = false →
        t.untilAny f =
          (if ((t.bump w).untilAny f).2.1 then
            utf8Encode c ++ ((t.bump w).untilAny f).1
          else ((t.bump w).untilAny f).1,
           ((t.bump w).untilAny f).2.1, ((t.bump w).untilAny f).2.2))) ∧
    (t.srcErr = .eof → (t.untilAny f).2.1 = false →
      (t.untilAny f).2.2.err = some .errUnexpectedEOF) ∧
    (newTextReader [97, 98, 59, 99, 100] .eof).untilAny (fun c => c == 59) =
      ([97, 98], true,
        { (newTextReader [97, 98, 59, 99, 100] .eof) with
          src := [99, 100], n := 2 }) ∧
    (((newTextReader [97, 98, 59, 99, 100] .eof).untilAny
        (fun c => c == 59)).2.2.next) =
      (99,
        { (newTextReader [97, 98, 59, 99, 100] .eof) with
          src := [100], n := 3 }) := by
  have hat : t.untilAny f = untilAnyGo f (t.src.length + 1) t [] := by
    simp [TextReader.untilAny, h0]
  refine ⟨?_, ?_, by decide, by decide⟩
  · intro b rest c w hsrc hdec
    have hw := utf8DecodeFirst_width_pos b rest
    rw [hdec] at hw
    have hbump : t.bump w = { t with src := (b :: rest).drop w, n := t.n + w } := by
      simp [TextReader.bump, hsrc]
    constructor
    · intro hcv
      rw [hat, hsrc,
        untilAnyGo_cons f (b :: rest).length t [] b rest hsrc c w hdec,
        if_pos hcv]
    · intro hcv
      rw [hat, hsrc,
        untilAnyGo_cons f (b :: rest).length t [] b rest hsrc c w hdec,
        if_neg (by simp [hcv])]
      simp only [List.nil_append]
      rw [untilAnyGo_acc f (b :: rest).length
        { t with src := (b :: rest).drop w, n := t.n + w } (utf8Encode c)]
      have hadv : (t.bump w).untilAny f =
          untilAnyGo f (b :: rest).length
            { t with src := (b :: rest).drop w, n := t.n + w } [] := by
        rw [hbump]
        have hg : ({ t with
              src := (b :: rest).drop w, n := t.n + w } : TextReader).untilAny f =
            untilAnyGo f (((b :: rest).drop w).length + 1)
              { t with src := (b :: rest).drop w, n := t.n + w } [] := by
          simp [TextReader.untilAny, h0]
        rw [hg]
        apply untilAnyGo_fuel
        · simp only [List.length_drop, List.length_cons]
          omega
        · simp only [List.length_drop, List.length_cons]
          omega
      rw [hadv]
  · intro heof hfail
    rw [hat] at hfail ⊢
    exact untilAnyGo_eof_fault f (t.src.length + 1) t [] (by omega) heof hfail

/-- Witness for C4 amended: the match-consumption step on `";a"`, the
accumulation step on `"a;"`, and the unexpected-EOF latch on `"ab"`. -/
theorem c4_untilAny_behavior_witness :
    (newTextReader [59, 97] .eof).untilAny (fun c => c == 59) =
      ([], true, { (newTextReader [59, 97] .eof) with src := [97] }) ∧
    (newTextReader [97, 59] .eof).untilAny (fun c => c == 59) =
      ([97], true,
        { (newTextReader [97, 59] .eof) with src := [], n := 1 }) ∧
    ((newTextReader [97, 98] .eof).untilAny (fun c => c == 59)).2.2.err =
      some .errUnexpectedEOF := by
  have h1 := c4_untilAny_behavior (newTextReader [59, 97] .eof)
    (fun c => c == 59) rfl
  have h2 := c4_untilAny_behavior (newTextReader [97, 59] .eof)
    (fun c => c == 59) rfl
  have h3 := c4_untilAny_behavior (newTextReader [97, 98] .eof)
    (fun c => c == 59) rfl
  refine ⟨?_, ?_, h3.2.1 rfl (by decide)⟩
  · have := (h1.1 59 [97] 59 1 rfl (by decide)).1 (by decide)
    simpa using this
  · have := (h2.1 97 [59] 97 1 rfl (by decide)).2 (by decide)
    simpa [TextReader.bump] using this
